import Mathlib

/-!
Shallow embedding of the Tapo camera auto-export script (`src/main.py`) and
proofs of the specification's claims about it.

Modelling conventions:
* Machine integers are `Nat`/`Int`; epoch timestamps are `Nat` (the script
  reads them from the camera catalog as non-negative epoch seconds and passes
  them through `int(...)`).
* Python's `datetime.fromtimestamp` interprets the epoch in the ambient local
  timezone; we model the local timezone as an explicit offset `tz` (seconds
  east of UTC, an `Int`), fixed for a run, and compute the civil date with the
  standard proleptic-Gregorian algorithm using floor (Euclidean) division,
  which matches Python's `//`/`divmod` semantics.
* `os.sep` / `os.path.join` are modelled for the POSIX platform with `"/"`.
* Python's float division in `int((progress / total) * 100)` is idealised as
  the exact integer floor `(progress * 100) / total`.
-/

namespace TapoExport

/-- Zero-pad the decimal rendering of `n` to `width` digits, as Python's
`strftime` field directives (`%Y`, `%m`, `%d`, `%H`, `%M`, `%S`) do. -/
def zpad (width : Nat) (n : Int) : String :=
  let s := toString n
  if s.length < width then
    String.mk (List.replicate (width - s.length) '0') ++ s
  else s

/-- Civil (proleptic Gregorian) date from a count of days since 1970-01-01,
by the standard era-based algorithm, with floor division throughout.
Returns `(year, month, day)`. -/
def civilFromDays (z0 : Int) : Int × Int × Int :=
  let z := z0 + 719468
  let era := z.ediv 146097
  let doe := z - era * 146097
  let yoe := (doe - doe.ediv 1460 + doe.ediv 36524 - doe.ediv 146096).ediv 365
  let y := yoe + era * 400
  let doy := doe - (365 * yoe + yoe.ediv 4 - yoe.ediv 100)
  let mp := (5 * doy + 2).ediv 153
  let d := doy - (153 * mp + 2).ediv 5 + 1
  let m := mp + (if mp < 10 then 3 else -9)
  (y + (if m ≤ 2 then 1 else 0), m, d)

/-- Broken-down local time, the relevant fields of a Python `datetime`. -/
structure PyDateTime where
  year : Int
  month : Int
  day : Int
  hour : Int
  minute : Int
  second : Int
deriving DecidableEq, Repr

/-- Model of `datetime.fromtimestamp(timestamp)`: split the local epoch
(timestamp shifted by the local-timezone offset `tz`) into a civil date and a
time of day. -/
def fromtimestamp (tz : Int) (timestamp : Nat) : PyDateTime :=
  let t : Int := (timestamp : Int) + tz
  let days := t.ediv 86400
  let sod := t.emod 86400
  let c := civilFromDays days
  ⟨c.1, c.2.1, c.2.2, sod.ediv 3600, (sod.emod 3600).ediv 60, sod.emod 60⟩

/-- Model of `dt.strftime("%Y%m%d_%H%M%S")`. -/
def strftimeCompact (dt : PyDateTime) : String :=
  zpad 4 dt.year ++ zpad 2 dt.month ++ zpad 2 dt.day ++ "_" ++
    zpad 2 dt.hour ++ zpad 2 dt.minute ++ zpad 2 dt.second

/-- Embedding of `format_filename` (src/main.py lines 32-37):
`{localTime as YYYYMMDD_HHMMSS}-{int(timestamp)}.mp4`. -/
def format_filename (tz : Int) (timestamp : Nat) : String :=
  let dt := fromtimestamp tz timestamp
  let local_time := strftimeCompact dt
  let unix_timestamp := timestamp
  local_time ++ "-" ++ toString unix_timestamp ++ ".mp4"

/-- Embedding of `get_date_folder` (src/main.py lines 40-43):
`os.path.join(dt.strftime("%Y"), dt.strftime("%m"), dt.strftime("%d"))`. -/
def get_date_folder (tz : Int) (timestamp : Nat) : String :=
  let dt := fromtimestamp tz timestamp
  zpad 4 dt.year ++ "/" ++ zpad 2 dt.month ++ "/" ++ zpad 2 dt.day

/-- A recording entry as consumed by `download_recording`: the `startTime`
and `endTime` fields are guaranteed present by `extract_recordings`; the
`vedio_type` field (spelling as in the camera firmware / source) is read with
a default and only printed. -/
structure Recording where
  startTime : Nat
  endTime : Nat
  vedio_type : String
deriving DecidableEq, Repr

/-- Date folder planned for a recording (`get_date_folder(start_time)`). -/
def recordingDateFolder (tz : Int) (r : Recording) : String :=
  get_date_folder tz r.startTime

/-- Filename planned for a recording (`format_filename(start_time)`). -/
def recordingFilename (tz : Int) (r : Recording) : String :=
  format_filename tz r.startTime

/-- Full target path of a recording's artifact, as built in
`download_recording` (src/main.py lines 79-84):
`os.path.join(base_output_dir, date_folder)` then
`os.path.join(output_dir, filename)`. -/
def recordingFilepath (tz : Int) (base : String) (r : Recording) : String :=
  base ++ "/" ++ recordingDateFolder tz r ++ "/" ++ recordingFilename tz r

/-- Artifact path as the spec's §6 "Persisted layout" sentence describes it:
`{output}/{YYYY}/{MM}/{DD}/{YYYYMMDD_HHMMSS}-{epochSeconds}.mp4`, each date
component zero-padded and derived from `startTime` in local time, the suffix
the integer value of `startTime`. Stated from the spec's words, to be compared
against `recordingFilepath`. -/
def specArtifactPath (tz : Int) (output : String) (startTime : Nat) : String :=
  let dt := fromtimestamp tz startTime
  output ++ "/" ++ zpad 4 dt.year ++ "/" ++ zpad 2 dt.month ++ "/" ++
    zpad 2 dt.day ++ "/" ++
    (zpad 4 dt.year ++ zpad 2 dt.month ++ zpad 2 dt.day ++ "_" ++
      zpad 2 dt.hour ++ zpad 2 dt.minute ++ zpad 2 dt.second) ++ "-" ++
    toString startTime ++ ".mp4"

/-! Catalog responses.  The camera's reply to `getRecordingsList` /
`getRecordings` is an untyped JSON-like value; `PyVal` models the Python
runtime values the extraction functions inspect with `isinstance`. -/

/-- Untyped value tree as the extraction functions see it. -/
inductive PyVal where
  | pynone : PyVal
  | pybool : Bool → PyVal
  | pyint : Int → PyVal
  | pystr : String → PyVal
  | pylist : List PyVal → PyVal
  | pydict : List (String × PyVal) → PyVal

/-- Python `d[k]` / `k in d` on a dict rendered as an association list in
insertion order (Python dict keys are unique; lookup takes the first hit). -/
def dictGet (entries : List (String × PyVal)) (k : String) : Option PyVal :=
  (entries.find? (fun e => e.1 = k)).map (·.2)

/-- Embedding of `extract_dates` (src/main.py lines 46-55): for a list input,
walk each dict item's entries in order and collect `value['date']` whenever
the key starts with `search_results_`, the value is a dict, and it has a
`date` field; any other input shape yields `[]`. -/
def extract_dates (dates_data : PyVal) : List PyVal :=
  match dates_data with
  | .pylist items =>
      items.flatMap fun item =>
        match item with
        | .pydict entries =>
            entries.filterMap fun kv =>
              if kv.1.startsWith "search_results_" then
                match kv.2 with
                | .pydict ventries => dictGet ventries "date"
                | _ => none
              else none
        | _ => []
  | _ => []

/-- Embedding of `extract_recordings` (src/main.py lines 58-68): for a list
input, walk each dict item's entries in order and collect the value whenever
the key starts with `search_video_results_`, the value is a dict, and it has
both `startTime` and `endTime` fields; any other input shape yields `[]`. -/
def extract_recordings (recordings_data : PyVal) : List PyVal :=
  match recordings_data with
  | .pylist items =>
      items.flatMap fun item =>
        match item with
        | .pydict entries =>
            entries.filterMap fun kv =>
              match kv.2 with
              | .pydict ventries =>
                  if kv.1.startsWith "search_video_results_" ∧
                      (dictGet ventries "startTime").isSome ∧
                      (dictGet ventries "endTime").isSome then
                    some kv.2
                  else none
              | _ => none
        | _ => []
  | _ => []

/-- The `(key, value)` entries of one response item: a mapping contributes
its entries in order, anything else contributes nothing. -/
def itemEntries (item : PyVal) : List (String × PyVal) :=
  match item with
  | .pydict entries => entries
  | _ => []

/-- All `(key, value)` entries of the mapping items of a response, flattened
in order; non-mapping items contribute nothing. Used by the spec-side
characterisation of the extractors. -/
def responseEntries (v : PyVal) : List (String × PyVal) :=
  match v with
  | .pylist items => items.flatMap itemEntries
  | _ => []

/-- Spec-side date extraction, stated from the claim's words: exactly the
`date` fields of (dict-valued) entries whose key starts with
`search_results_`; everything else silently excluded. -/
def specDates (v : PyVal) : List PyVal :=
  (responseEntries v).filterMap fun kv =>
    if kv.1.startsWith "search_results_" then
      match kv.2 with
      | .pydict ventries => dictGet ventries "date"
      | _ => none
    else none

/-- Spec-side recording extraction, stated from the claim's words: exactly
the mapping entries whose key starts with `search_video_results_` and that
contain both `startTime` and `endTime`; everything else silently excluded. -/
def specRecordings (v : PyVal) : List PyVal :=
  (responseEntries v).filterMap fun kv =>
    match kv.2 with
    | .pydict ventries =>
        if kv.1.startsWith "search_video_results_" ∧
            (dictGet ventries "startTime").isSome ∧
            (dictGet ventries "endTime").isSome then
          some kv.2
        else none
    | _ => none

/-! Progress reporting inside `download_recording`'s streaming loop. -/

/-- One event yielded by `downloader.download()`: the action label and the
`status.get("progress", 0)` / `status.get("total", 0)` counters. -/
structure ProgressEvent where
  currentAction : String
  progress : Nat
  total : Nat
deriving DecidableEq, Repr

/-- One console report emitted by the streaming loop: either a progress-bar
line with a percentage, or a bare action label line. -/
inductive Report where
  | percent : String → Int → Report
  | actionLabel : String → Report
deriving DecidableEq, Repr

/-- Derived percentage `int((progress / total) * 100)`, idealised to exact
integer arithmetic (meaningful only when `total > 0`). -/
def eventPercent (e : ProgressEvent) : Int :=
  ((e.progress : Int) * 100).ediv (e.total : Int)

/-- Embedding of the `async for status in downloader.download()` loop body
(src/main.py lines 110-127). State is `last_percent` (initially `-1`);
when `total > 0` a percentage line is printed only if the percentage differs
from `last_percent` and is a multiple of 5 (and `last_percent` is updated
exactly then); when `total == 0` an action line is printed for every event
whose label is not `"Downloading"`. Returns the final `last_percent` and the
reports in order. -/
def runReports (L : Int) : List ProgressEvent → Int × List Report
  | [] => (L, [])
  | e :: rest =>
      if 0 < e.total then
        let percent := eventPercent e
        if percent ≠ L ∧ percent % 5 = 0 then
          let r := runReports percent rest
          (r.1, Report.percent e.currentAction percent :: r.2)
        else runReports L rest
      else
        if e.currentAction ≠ "Downloading" then
          let r := runReports L rest
          (r.1, Report.actionLabel e.currentAction :: r.2)
        else runReports L rest

/-! The per-recording download (`download_recording`). -/

/-- Behaviour of the streaming collaborator for one transfer: the progress
events its stream yields, then either normal completion (`failure = none`)
or an exception with the given reason. -/
structure TransferBehavior where
  events : List ProgressEvent
  failure : Option String

/-- The three values `download_recording` returns: the string `"skipped"`,
`True`, or `False`. -/
inductive DlResult where
  | skipped : DlResult
  | ok : DlResult
  | err : DlResult
deriving DecidableEq, Repr

/-- Observable outcome of one `download_recording` call: its return value,
the progress reports printed, and whether a transfer (a `Downloader`) was
started at all. -/
structure DlOutput where
  result : DlResult
  reports : List Report
  transferStarted : Bool
deriving DecidableEq, Repr

/-- Embedding of `download_recording` (src/main.py lines 71-134). `fs` is the
set of paths existing on disk. If the target path already exists the function
returns `"skipped"` without constructing a `Downloader`; otherwise it drives
the stream, printing reports, and returns `True` on completion or `False`
when the collaborator raises (the `except` clause catches every exception). -/
def download_recording (fs : List String) (transfer : TransferBehavior)
    (tz : Int) (r : Recording) (base : String) : DlOutput :=
  let filepath := recordingFilepath tz base r
  if filepath ∈ fs then
    ⟨.skipped, [], false⟩
  else
    let reports := (runReports (-1) transfer.events).2
    match transfer.failure with
    | none => ⟨.ok, reports, true⟩
    | some _ => ⟨.err, reports, true⟩

/-! Remote deletion (`try_delete_recording`). -/

/-- The two parameter shapes the deletion probe sends (src/main.py
lines 144-168): the `deleteRecording` variant with stringified times under
`playback.delete_video`, and the `do` variant with integer times under
`playback.delete`. -/
inductive DeleteParams where
  | delete_video : Nat → String → String → DeleteParams
  | playback_delete : Nat → Nat → DeleteParams
deriving DecidableEq, Repr

/-- One remote `executeFunction(method, params)` call issued to the camera. -/
structure DeleteCall where
  method : String
  params : DeleteParams
deriving DecidableEq, Repr

/-- The ordered `delete_attempts` list built for a recording. -/
def delete_attempts (r : Recording) : List DeleteCall :=
  [⟨"deleteRecording",
      .delete_video 0 (toString r.startTime) (toString r.endTime)⟩,
   ⟨"do", .playback_delete r.startTime r.endTime⟩]

/-- The `for attempt in delete_attempts` probe: issue each call in order
until one succeeds (`respond` says whether the camera accepts a call);
returns whether any succeeded and the calls actually issued. -/
def tryAttempts (respond : DeleteCall → Bool) :
    List DeleteCall → Bool × List DeleteCall
  | [] => (false, [])
  | c :: rest =>
      if respond c then (true, [c])
      else
        let r := tryAttempts respond rest
        (r.1, c :: r.2)

/-- Embedding of `try_delete_recording` (src/main.py lines 137-185): returns
`False` immediately — issuing no remote call — unless the process-wide
`DELETE_AFTER_DOWNLOAD` flag is set; otherwise probes the attempt list. -/
def try_delete_recording (flag : Bool) (respond : DeleteCall → Bool)
    (r : Recording) : Bool × List DeleteCall :=
  if flag then tryAttempts respond (delete_attempts r)
  else (false, [])

/-! The batch loop of `download_all_videos` (src/main.py lines 249-266). -/

/-- One recording of the flattened catalog together with the behaviour of
its external collaborators: the streaming transfer and the camera's reply to
deletion probes. -/
structure Item where
  recording : Recording
  transfer : TransferBehavior
  respond : DeleteCall → Bool

/-- Observable state of a batch run: the filesystem, the four counters, the
remote delete calls issued so far, and how many transfers were started. -/
structure BatchState where
  fs : List String
  successful : Nat
  skipped : Nat
  failed : Nat
  deleted : Nat
  deleteCalls : List DeleteCall
  transfersStarted : Nat

/-- Initial state of a run over a filesystem `fs`: all counters zero. -/
def initState (fs : List String) : BatchState :=
  ⟨fs, 0, 0, 0, 0, [], 0⟩

/-- One iteration of the `for i, recording in enumerate(all_recordings, 1)`
loop: run `download_recording`, then increment exactly one of
skipped/successful/failed; on success the streaming collaborator has written
the artifact (the path is added to `fs`) and `try_delete_recording` is
consulted, incrementing `deleted` when it returns `True`. -/
def batchStep (flag : Bool) (tz : Int) (base : String) (s : BatchState)
    (it : Item) : BatchState :=
  let out := download_recording s.fs it.transfer tz it.recording base
  match out.result with
  | .skipped => { s with skipped := s.skipped + 1 }
  | .ok =>
      let del := try_delete_recording flag it.respond it.recording
      { s with
        fs := recordingFilepath tz base it.recording :: s.fs,
        successful := s.successful + 1,
        deleted := s.deleted + (if del.1 then 1 else 0),
        deleteCalls := s.deleteCalls ++ del.2,
        transfersStarted := s.transfersStarted + 1 }
  | .err =>
      { s with
        failed := s.failed + 1,
        transfersStarted := s.transfersStarted + 1 }

/-- The whole download loop over the flattened recording list. Every
observation point of a run over a list `L` is the final state of a run over
some prefix of `L`, so universally quantified statements about `runBatch`
cover all observation points. -/
def runBatch (flag : Bool) (tz : Int) (base : String) (s : BatchState)
    (items : List Item) : BatchState :=
  items.foldl (batchStep flag tz base) s

/-! Helper lemmas. -/

/-- `filterMap` distributes over `flatMap`. -/
theorem filterMap_flatMap {α β γ : Type} (l : List α) (f : α → List β)
    (g : β → Option γ) :
    (l.flatMap f).filterMap g = l.flatMap fun x => (f x).filterMap g := by
  induction l with
  | nil => rfl
  | cons a t ih => simp [List.flatMap_cons, List.filterMap_append, ih]

/-! Claim theorems. -/

/-- Claim C4: the planned artifact path is a deterministic and idempotent
function of `startTime` alone — calling the planner twice on the same
`startTime` yields identical results, and two recordings with the same
`startTime` get the same date folder, filename, and full path regardless of
their `endTime` or type. -/
theorem c4_path_depends_on_startTime_only (tz : Int) (base : String)
    (r1 r2 : Recording) (h : r1.startTime = r2.startTime) :
    (get_date_folder tz r1.startTime = get_date_folder tz r1.startTime ∧
      format_filename tz r1.startTime = format_filename tz r1.startTime) ∧
    recordingDateFolder tz r1 = recordingDateFolder tz r2 ∧
    recordingFilename tz r1 = recordingFilename tz r2 ∧
    recordingFilepath tz base r1 = recordingFilepath tz base r2 := by
  refine ⟨⟨rfl, rfl⟩, ?_, ?_, ?_⟩ <;>
    simp [recordingDateFolder, recordingFilename, recordingFilepath, h]

/-- Witness for C4 at concrete recordings sharing a `startTime` but differing
in `endTime` and type. -/
theorem c4_witness :
    (Recording.mk 100 130 "motion").startTime
        = (Recording.mk 100 999 "timelapse").startTime ∧
      recordingFilepath 0 "out" (Recording.mk 100 130 "motion")
        = recordingFilepath 0 "out" (Recording.mk 100 999 "timelapse") :=
  ⟨rfl, (c4_path_depends_on_startTime_only 0 "out"
      (Recording.mk 100 130 "motion") (Recording.mk 100 999 "timelapse")
      rfl).2.2.2⟩

/-- Claim C5: for every `startTime`, the persisted artifact path equals
`{output}/{YYYY}/{MM}/{DD}/{YYYYMMDD_HHMMSS}-{epochSeconds}.mp4`, the date
components zero-padded and derived from `startTime` in local time and the
suffix the integer value of `startTime`. -/
theorem c5_persisted_layout (tz : Int) (output : String) (r : Recording) :
    recordingFilepath tz output r = specArtifactPath tz output r.startTime := by
  simp [recordingFilepath, recordingDateFolder, recordingFilename,
    format_filename, get_date_folder, strftimeCompact, specArtifactPath,
    String.append_assoc]

/-- Claim C6: the extraction functions are total over arbitrary response
shapes and return exactly the entries the claim describes: `extract_dates`
the `date` fields of dict-valued entries whose key starts with
`search_results_`, and `extract_recordings` the mapping entries whose key
starts with `search_video_results_` and that contain both `startTime` and
`endTime`; everything else is silently excluded. -/
theorem c6_lenient_extraction (v : PyVal) :
    extract_dates v = specDates v ∧ extract_recordings v = specRecordings v := by
  constructor
  · cases v with
    | pylist items =>
        show items.flatMap _ = (items.flatMap itemEntries).filterMap _
        rw [filterMap_flatMap]
        refine congrArg (fun g => items.flatMap g) (funext fun item => ?_)
        cases item <;> rfl
    | pynone => rfl
    | pybool b => rfl
    | pyint n => rfl
    | pystr s => rfl
    | pydict es => rfl
  · cases v with
    | pylist items =>
        show items.flatMap _ = (items.flatMap itemEntries).filterMap _
        rw [filterMap_flatMap]
        refine congrArg (fun g => items.flatMap g) (funext fun item => ?_)
        cases item <;> rfl
    | pynone => rfl
    | pybool b => rfl
    | pyint n => rfl
    | pystr s => rfl
    | pydict es => rfl

/-! Batch-loop helper lemmas. -/

/-- Splitting a batch run at any point: the loop simply continues from the
intermediate state. -/
theorem runBatch_append (flag : Bool) (tz : Int) (base : String)
    (s : BatchState) (l1 l2 : List Item) :
    runBatch flag tz base s (l1 ++ l2)
      = runBatch flag tz base (runBatch flag tz base s l1) l2 := by
  simp [runBatch, List.foldl_append]

/-- A step on an item whose target path already exists only increments the
skipped counter. -/
theorem batchStep_of_mem (flag : Bool) (tz : Int) (base : String)
    (s : BatchState) (it : Item)
    (h : recordingFilepath tz base it.recording ∈ s.fs) :
    batchStep flag tz base s it = { s with skipped := s.skipped + 1 } := by
  simp [batchStep, download_recording, h]

/-- A step on an item whose target path is absent and whose transfer raises
only increments the failed counter (and the started-transfer count). -/
theorem batchStep_of_failure (flag : Bool) (tz : Int) (base : String)
    (s : BatchState) (it : Item)
    (h : recordingFilepath tz base it.recording ∉ s.fs)
    (hf : it.transfer.failure.isSome) :
    batchStep flag tz base s it
      = { s with
          failed := s.failed + 1,
          transfersStarted := s.transfersStarted + 1 } := by
  rcases hk : it.transfer.failure with _ | reason
  · rw [hk] at hf; simp at hf
  · simp [batchStep, download_recording, h, hk]

/-- Each step grows the three outcome counters by exactly one in total. -/
theorem batchStep_counterSum (flag : Bool) (tz : Int) (base : String)
    (s : BatchState) (it : Item) :
    (batchStep flag tz base s it).successful
        + (batchStep flag tz base s it).skipped
        + (batchStep flag tz base s it).failed
      = s.successful + s.skipped + s.failed + 1 := by
  rcases hres : (download_recording s.fs it.transfer tz it.recording base).result
    <;> simp [batchStep, hres] <;> omega

/-- Each step increments exactly one of the three outcome counters. -/
theorem batchStep_exactlyOne (flag : Bool) (tz : Int) (base : String)
    (s : BatchState) (it : Item) :
    ((batchStep flag tz base s it).successful = s.successful + 1 ∧
      (batchStep flag tz base s it).skipped = s.skipped ∧
      (batchStep flag tz base s it).failed = s.failed) ∨
    ((batchStep flag tz base s it).successful = s.successful ∧
      (batchStep flag tz base s it).skipped = s.skipped + 1 ∧
      (batchStep flag tz base s it).failed = s.failed) ∨
    ((batchStep flag tz base s it).successful = s.successful ∧
      (batchStep flag tz base s it).skipped = s.skipped ∧
      (batchStep flag tz base s it).failed = s.failed + 1) := by
  rcases hres : (download_recording s.fs it.transfer tz it.recording base).result
  · right; left; simp [batchStep, hres]
  · left; simp [batchStep, hres]
  · right; right; simp [batchStep, hres]

/-- Counter-sum invariant over a whole run, from any starting state. -/
theorem runBatch_counterSum (flag : Bool) (tz : Int) (base : String)
    (items : List Item) (s : BatchState) :
    (runBatch flag tz base s items).successful
        + (runBatch flag tz base s items).skipped
        + (runBatch flag tz base s items).failed
      = s.successful + s.skipped + s.failed + items.length := by
  induction items generalizing s with
  | nil => simp [runBatch]
  | cons it t ih =>
      have hstep := batchStep_counterSum flag tz base s it
      calc (runBatch flag tz base s (it :: t)).successful
            + (runBatch flag tz base s (it :: t)).skipped
            + (runBatch flag tz base s (it :: t)).failed
          = (batchStep flag tz base s it).successful
              + (batchStep flag tz base s it).skipped
              + (batchStep flag tz base s it).failed + t.length := by
            simpa [runBatch] using ih (batchStep flag tz base s it)
        _ = s.successful + s.skipped + s.failed + (it :: t).length := by
            rw [hstep]; simp; omega

/-- The filesystem only grows during a run. -/
theorem runBatch_fs_mono (flag : Bool) (tz : Int) (base : String)
    (items : List Item) (s : BatchState) (p : String) (h : p ∈ s.fs) :
    p ∈ (runBatch flag tz base s items).fs := by
  induction items generalizing s with
  | nil => simpa [runBatch] using h
  | cons it t ih =>
      have hstep : p ∈ (batchStep flag tz base s it).fs := by
        rcases hres : (download_recording s.fs it.transfer tz it.recording base).result
          <;> simp [batchStep, hres, h]
      simpa [runBatch] using ih (batchStep flag tz base s it) hstep

/-- If every item's target path already exists in the starting filesystem,
the run only counts skips: the final state is the start state with the
skipped counter advanced by the number of items. -/
theorem runBatch_all_present (flag : Bool) (tz : Int) (base : String)
    (items : List Item) (s : BatchState)
    (h : ∀ it ∈ items, recordingFilepath tz base it.recording ∈ s.fs) :
    runBatch flag tz base s items
      = { s with skipped := s.skipped + items.length } := by
  induction items generalizing s with
  | nil => simp [runBatch]
  | cons it t ih =>
      have h1 : recordingFilepath tz base it.recording ∈ s.fs :=
        h it (List.mem_cons_self it t)
      have hstep := batchStep_of_mem flag tz base s it h1
      have ht : ∀ j ∈ t,
          recordingFilepath tz base j.recording
            ∈ ({ s with skipped := s.skipped + 1 } : BatchState).fs := by
        intro j hj
        exact h j (List.mem_cons_of_mem it hj)
      calc runBatch flag tz base s (it :: t)
          = runBatch flag tz base ({ s with skipped := s.skipped + 1 }) t := by
            simp [runBatch, hstep]
        _ = { s with skipped := s.skipped + 1 + t.length } := ih _ ht
        _ = { s with skipped := s.skipped + (it :: t).length } := by
            simp; omega

/-- After a run in which no transfer raises, every item's artifact path is
present in the final filesystem (it was either already there or has just
been written). -/
theorem runBatch_paths_present (flag : Bool) (tz : Int) (base : String)
    (items : List Item) (s : BatchState)
    (h : ∀ it ∈ items, it.transfer.failure = none) :
    ∀ it ∈ items,
      recordingFilepath tz base it.recording
        ∈ (runBatch flag tz base s items).fs := by
  induction items generalizing s with
  | nil => intro it hit; simp at hit
  | cons j t ih =>
      intro it hit
      have hrun : runBatch flag tz base s (j :: t)
          = runBatch flag tz base (batchStep flag tz base s j) t := by
        simp [runBatch]
      rcases List.mem_cons.mp hit with rfl | hmem
      · have hfs : recordingFilepath tz base it.recording
            ∈ (batchStep flag tz base s it).fs := by
          by_cases hmem2 : recordingFilepath tz base it.recording ∈ s.fs
          · rw [batchStep_of_mem flag tz base s it hmem2]
            exact hmem2
          · have hnone := h it (List.mem_cons_self it t)
            simp [batchStep, download_recording, hmem2, hnone]
        rw [hrun]
        exact runBatch_fs_mono flag tz base t _ _ hfs
      · rw [hrun]
        exact ih (batchStep flag tz base s j)
          (fun x hx => h x (List.mem_cons_of_mem j hx)) it hmem

/-- Claim C1: if a recording's planned artifact file already exists at the
exact target path, the decision is Skip, never Proceed — `download_recording`
returns `"skipped"` without starting a transfer, the batch counts it as
skipped, and consequently a run over a filesystem that already holds every
artifact (as after a fully successful run, whose artifacts are all present)
downloads nothing: every recording is skipped, zero transfers start. -/
theorem c1_exists_implies_skip (flag : Bool) (tz : Int) (base : String)
    (fs : List String) (tb : TransferBehavior) (r : Recording)
    (items : List Item)
    (hmem : recordingFilepath tz base r ∈ fs)
    (hall : ∀ it ∈ items, recordingFilepath tz base it.recording ∈ fs)
    (items2 : List Item) (fs2 : List String)
    (hok : ∀ it ∈ items2, it.transfer.failure = none) :
    download_recording fs tb tz r base = ⟨.skipped, [], false⟩ ∧
    (runBatch flag tz base (initState fs) items).skipped = items.length ∧
    (runBatch flag tz base (initState fs) items).successful = 0 ∧
    (runBatch flag tz base (initState fs) items).transfersStarted = 0 ∧
    (∀ it ∈ items2,
      recordingFilepath tz base it.recording
        ∈ (runBatch flag tz base (initState fs2) items2).fs) := by
  have h1 : download_recording fs tb tz r base = ⟨.skipped, [], false⟩ := by
    simp [download_recording, hmem]
  have h2 := runBatch_all_present flag tz base items (initState fs) hall
  refine ⟨h1, ?_, ?_, ?_, ?_⟩
  · rw [h2]; simp [initState]
  · rw [h2]; simp [initState]
  · rw [h2]; simp [initState]
  · exact runBatch_paths_present flag tz base items2 (initState fs2) hok

/-- Witness for C1: a one-recording catalog whose artifact is already on
disk is skipped without a transfer, and a run with a succeeding transfer
leaves the artifact present. -/
theorem c1_witness :
    (recordingFilepath 0 "out" (Recording.mk 60 90 "motion")
        ∈ [recordingFilepath 0 "out" (Recording.mk 60 90 "motion")]) ∧
      download_recording [recordingFilepath 0 "out" (Recording.mk 60 90 "motion")]
          ⟨[], none⟩ 0 (Recording.mk 60 90 "motion") "out"
        = ⟨.skipped, [], false⟩ ∧
      (runBatch false 0 "out"
          (initState [recordingFilepath 0 "out" (Recording.mk 60 90 "motion")])
          [⟨Recording.mk 60 90 "motion", ⟨[], none⟩, fun _ => false⟩]).skipped
        = 1 :=
  have h := c1_exists_implies_skip false 0 "out"
    [recordingFilepath 0 "out" (Recording.mk 60 90 "motion")]
    ⟨[], none⟩ (Recording.mk 60 90 "motion")
    [⟨Recording.mk 60 90 "motion", ⟨[], none⟩, fun _ => false⟩]
    (List.mem_singleton.mpr rfl)
    (by
      intro it hit
      rw [List.mem_singleton.mp hit]
      exact List.mem_singleton.mpr rfl)
    [] [] (by intro it hit; simp at hit)
  ⟨List.mem_singleton.mpr rfl, h.1, h.2.1⟩

/-- Claim C2: each processed recording increments exactly one of the three
counters successful/skipped/failed by exactly one, so at every observation
point successful + skipped + failed equals the number of recordings processed
so far (an observation point after `k` recordings is the final state of the
run over the length-`k` prefix, an instance of the quantified list). -/
theorem c2_counter_sum (flag : Bool) (tz : Int) (base : String)
    (s : BatchState) (it : Item) (fs : List String) (items : List Item) :
    (((batchStep flag tz base s it).successful = s.successful + 1 ∧
        (batchStep flag tz base s it).skipped = s.skipped ∧
        (batchStep flag tz base s it).failed = s.failed) ∨
      ((batchStep flag tz base s it).successful = s.successful ∧
        (batchStep flag tz base s it).skipped = s.skipped + 1 ∧
        (batchStep flag tz base s it).failed = s.failed) ∨
      ((batchStep flag tz base s it).successful = s.successful ∧
        (batchStep flag tz base s it).skipped = s.skipped ∧
        (batchStep flag tz base s it).failed = s.failed + 1)) ∧
    (runBatch flag tz base (initState fs) items).successful
        + (runBatch flag tz base (initState fs) items).skipped
        + (runBatch flag tz base (initState fs) items).failed
      = items.length := by
  refine ⟨batchStep_exactlyOne flag tz base s it, ?_⟩
  simpa [initState] using
    runBatch_counterSum flag tz base items (initState fs)

/-- Claim C3: an exception raised by the streaming collaborator during one
recording's transfer is caught and converted into a Failed outcome: the
failed counter increments by exactly one, the other counters are untouched,
and the batch loop continues with the remaining recordings. -/
theorem c3_failure_is_isolated (flag : Bool) (tz : Int) (base : String)
    (fs : List String) (pre post : List Item) (r : Recording)
    (events : List ProgressEvent) (reason : String)
    (respond : DeleteCall → Bool)
    (hmem : recordingFilepath tz base r
        ∉ (runBatch flag tz base (initState fs) pre).fs) :
    runBatch flag tz base (initState fs)
        (pre ++ (⟨r, ⟨events, some reason⟩, respond⟩ : Item) :: post)
      = runBatch flag tz base
          (batchStep flag tz base (runBatch flag tz base (initState fs) pre)
            ⟨r, ⟨events, some reason⟩, respond⟩) post ∧
    (batchStep flag tz base (runBatch flag tz base (initState fs) pre)
        ⟨r, ⟨events, some reason⟩, respond⟩).failed
      = (runBatch flag tz base (initState fs) pre).failed + 1 ∧
    (batchStep flag tz base (runBatch flag tz base (initState fs) pre)
        ⟨r, ⟨events, some reason⟩, respond⟩).successful
      = (runBatch flag tz base (initState fs) pre).successful ∧
    (batchStep flag tz base (runBatch flag tz base (initState fs) pre)
        ⟨r, ⟨events, some reason⟩, respond⟩).skipped
      = (runBatch flag tz base (initState fs) pre).skipped ∧
    (batchStep flag tz base (runBatch flag tz base (initState fs) pre)
        ⟨r, ⟨events, some reason⟩, respond⟩).deleted
      = (runBatch flag tz base (initState fs) pre).deleted := by
  have hstep := batchStep_of_failure flag tz base
    (runBatch flag tz base (initState fs) pre)
    ⟨r, ⟨events, some reason⟩, respond⟩ hmem (by simp)
  refine ⟨?_, ?_, ?_, ?_, ?_⟩
  · rw [runBatch_append]; rfl
  · rw [hstep]
  · rw [hstep]
  · rw [hstep]
  · rw [hstep]

/-- Witness for C3: with an empty archive, a transfer that raises
`"connection reset"` on the only recording yields failed = 1 and the run
continues (vacuously) past it. -/
theorem c3_witness :
    (recordingFilepath 0 "out" (Recording.mk 60 90 "motion")
        ∉ (runBatch false 0 "out" (initState []) []).fs) ∧
      (batchStep false 0 "out" (runBatch false 0 "out" (initState []) [])
          ⟨Recording.mk 60 90 "motion", ⟨[], some "connection reset"⟩,
            fun _ => false⟩).failed
        = (runBatch false 0 "out" (initState []) []).failed + 1 :=
  have h := c3_failure_is_isolated false 0 "out" [] [] []
    (Recording.mk 60 90 "motion") [] "connection reset" (fun _ => false)
    (by simp [runBatch, initState])
  ⟨by simp [runBatch, initState], h.2.1⟩

/-- Claim C9: with the delete-after-download flag off (the default), no
remote deletion request is ever issued during a batch run and the deleted
counter stays 0 at every observation point, downloads succeeding or not. -/
theorem c9_no_delete_when_flag_off (tz : Int) (base : String)
    (fs : List String) (items : List Item) :
    (runBatch false tz base (initState fs) items).deleted = 0 ∧
    (runBatch false tz base (initState fs) items).deleteCalls = [] := by
  suffices h : ∀ l s, (runBatch false tz base s l).deleted = s.deleted ∧
      (runBatch false tz base s l).deleteCalls = s.deleteCalls by
    simpa [initState] using h items (initState fs)
  intro l
  induction l with
  | nil => intro s; exact ⟨rfl, rfl⟩
  | cons it t ih =>
      intro s
      have hstep : (batchStep false tz base s it).deleted = s.deleted ∧
          (batchStep false tz base s it).deleteCalls = s.deleteCalls := by
        rcases hres :
            (download_recording s.fs it.transfer tz it.recording base).result
          <;> simp [batchStep, hres, try_delete_recording]
      have := ih (batchStep false tz base s it)
      exact ⟨by rw [show runBatch false tz base s (it :: t)
              = runBatch false tz base (batchStep false tz base s it) t from rfl,
            this.1, hstep.1],
        by rw [show runBatch false tz base s (it :: t)
              = runBatch false tz base (batchStep false tz base s it) t from rfl,
            this.2, hstep.2]⟩

/-- Claim C10: deleted ≤ successful at every observation point; a step on a
recording whose artifact already exists issues no deletion call and leaves
deleted unchanged even when the flag is on; and any step raises deleted by at
most one, doing so only when that same step is a fresh successful download. -/
theorem c10_deleted_le_successful (flag : Bool) (tz : Int) (base : String)
    (fs : List String) (items : List Item) (s : BatchState) (it : Item)
    (hmem : recordingFilepath tz base it.recording ∈ s.fs) :
    (runBatch flag tz base (initState fs) items).deleted
        ≤ (runBatch flag tz base (initState fs) items).successful ∧
    ((batchStep flag tz base s it).deleteCalls = s.deleteCalls ∧
      (batchStep flag tz base s it).deleted = s.deleted) ∧
    (∀ s' : BatchState, ∀ it' : Item,
      (batchStep flag tz base s' it').deleted ≤ s'.deleted + 1 ∧
        ((batchStep flag tz base s' it').deleted = s'.deleted + 1 →
          (batchStep flag tz base s' it').successful = s'.successful + 1)) := by
  refine ⟨?_, ?_, ?_⟩
  · suffices h : ∀ l (s0 : BatchState), s0.deleted ≤ s0.successful →
        (runBatch flag tz base s0 l).deleted
          ≤ (runBatch flag tz base s0 l).successful by
      exact h items (initState fs) le_rfl
    intro l
    induction l with
    | nil => intro s0 h0; exact h0
    | cons j t ih =>
        intro s0 h0
        have hstep : (batchStep flag tz base s0 j).deleted
            ≤ (batchStep flag tz base s0 j).successful := by
          rcases hres :
              (download_recording s0.fs j.transfer tz j.recording base).result
            <;> simp [batchStep, hres]
          · exact h0
          · rcases (try_delete_recording flag j.respond j.recording).1
              <;> simp <;> omega
          · exact h0
        exact ih (batchStep flag tz base s0 j) hstep
  · rw [batchStep_of_mem flag tz base s it hmem]
    exact ⟨rfl, rfl⟩
  · intro s' it'
    rcases hres :
        (download_recording s'.fs it'.transfer tz it'.recording base).result
      <;> simp [batchStep, hres]
    rcases (try_delete_recording flag it'.respond it'.recording).1
      <;> simp

/-- Witness for C10 on a concrete skipped recording with the delete flag
enabled: no deletion call is issued and deleted stays 0. -/
theorem c10_witness :
    (recordingFilepath 0 "out" (Recording.mk 60 90 "motion")
        ∈ (initState [recordingFilepath 0 "out"
            (Recording.mk 60 90 "motion")]).fs) ∧
      (batchStep true 0 "out"
          (initState [recordingFilepath 0 "out" (Recording.mk 60 90 "motion")])
          ⟨Recording.mk 60 90 "motion", ⟨[], none⟩, fun _ => true⟩).deleted
        = (initState [recordingFilepath 0 "out"
            (Recording.mk 60 90 "motion")]).deleted :=
  have h := c10_deleted_le_successful true 0 "out" [] []
    (initState [recordingFilepath 0 "out" (Recording.mk 60 90 "motion")])
    ⟨Recording.mk 60 90 "motion", ⟨[], none⟩, fun _ => true⟩
    (List.mem_singleton.mpr rfl)
  ⟨List.mem_singleton.mpr rfl, h.2.1.2⟩

/-! Progress-reporting lemmas (claims C7 and C8). -/

/-- The percentage values carried by the percentage reports, in order. -/
def reportValues (reports : List Report) : List Int :=
  reports.filterMap fun rep =>
    match rep with
    | .percent _ v => some v
    | .actionLabel _ => none

/-- A derived percentage is never negative. -/
theorem eventPercent_nonneg (e : ProgressEvent) :
    0 ≤ eventPercent e := by
  unfold eventPercent
  have h1 : (0 : Int) ≤ (e.progress : Int) * 100 := by positivity
  have h2 : (0 : Int) ≤ (e.total : Int) := by exact_mod_cast Nat.zero_le _
  exact Int.ediv_nonneg h1 h2

/-- Bound on the number of reports: if every event has a positive total, the
derived percentages are nondecreasing, at most 100, and at least the current
`last_percent` value `L` (itself at most 104), then the stream emits at most
`(104 - L) / 5` reports. -/
theorem runReports_length_bound (events : List ProgressEvent) : ∀ L : Int,
    (∀ e ∈ events, 0 < e.total) →
    List.Sorted (· ≤ ·) (events.map eventPercent) →
    (∀ p ∈ events.map eventPercent, p ≤ 100) →
    (∀ p ∈ events.map eventPercent, L ≤ p) →
    L ≤ 104 →
    (((runReports L events).2).length : Int) ≤ (104 - L) / 5 := by
  induction events with
  | nil =>
      intro L _ _ _ _ h104
      simp only [runReports, List.length_nil]
      omega
  | cons e rest ih =>
      intro L htot hsort hle hL h104
      have htote : 0 < e.total := htot e (List.mem_cons_self e rest)
      have hpe : eventPercent e ≤ 100 := by
        refine hle _ ?_
        simp
      have hLe : L ≤ eventPercent e := by
        refine hL _ ?_
        simp
      have hsort' : List.Sorted (· ≤ ·) (rest.map eventPercent) :=
        (List.sorted_cons.mp (by simpa using hsort)).2
      have hhead : ∀ q ∈ rest.map eventPercent, eventPercent e ≤ q :=
        (List.sorted_cons.mp (by simpa using hsort)).1
      have hle' : ∀ p ∈ rest.map eventPercent, p ≤ 100 := by
        intro p hp
        exact hle p (by simp [hp])
      have htot' : ∀ x ∈ rest, 0 < x.total := by
        intro x hx
        exact htot x (List.mem_cons_of_mem e hx)
      simp only [runReports, if_pos htote]
      by_cases hc : eventPercent e ≠ L ∧ eventPercent e % 5 = 0
      · rw [if_pos hc]
        have hrec := ih (eventPercent e) htot' hsort' hle' hhead
          (by omega)
        simp only [List.length_cons]
        push_cast at hrec ⊢
        have h5 : eventPercent e % 5 = 0 := hc.2
        have hne : eventPercent e ≠ L := hc.1
        omega
      · rw [if_neg hc]
        exact ih L htot' hsort' hle' (fun p hp => hL p (by simp [hp])) h104

/-- When every event has a positive total, every report the loop prints is a
percentage report whose value is a multiple of 5. -/
theorem runReports_multiples_of_five (events : List ProgressEvent) :
    ∀ L : Int, (∀ e ∈ events, 0 < e.total) →
    ∀ rep ∈ (runReports L events).2,
      ∃ a v, rep = Report.percent a v ∧ v % 5 = 0 := by
  induction events with
  | nil => intro L _ rep hrep; simp [runReports] at hrep
  | cons e rest ih =>
      intro L htot rep hrep
      have htote : 0 < e.total := htot e (List.mem_cons_self e rest)
      have htot' : ∀ x ∈ rest, 0 < x.total :=
        fun x hx => htot x (List.mem_cons_of_mem e hx)
      simp only [runReports, if_pos htote] at hrep
      by_cases hc : eventPercent e ≠ L ∧ eventPercent e % 5 = 0
      · rw [if_pos hc] at hrep
        rcases List.mem_cons.mp hrep with rfl | hmem
        · exact ⟨e.currentAction, eventPercent e, rfl, hc.2⟩
        · exact ih (eventPercent e) htot' rep hmem
      · rw [if_neg hc] at hrep
        exact ih L htot' rep hrep

/-- The emitted percentage values form a strictly increasing chain above the
starting `last_percent`, under the same monotonicity hypotheses. -/
theorem runReports_values_chain (events : List ProgressEvent) : ∀ L : Int,
    (∀ e ∈ events, 0 < e.total) →
    List.Sorted (· ≤ ·) (events.map eventPercent) →
    (∀ p ∈ events.map eventPercent, L ≤ p) →
    List.Chain (· < ·) L (reportValues (runReports L events).2) := by
  induction events with
  | nil => intro L _ _ _; simp [runReports, reportValues]
  | cons e rest ih =>
      intro L htot hsort hL
      have htote : 0 < e.total := htot e (List.mem_cons_self e rest)
      have htot' : ∀ x ∈ rest, 0 < x.total :=
        fun x hx => htot x (List.mem_cons_of_mem e hx)
      have hsort' : List.Sorted (· ≤ ·) (rest.map eventPercent) :=
        (List.sorted_cons.mp (by simpa using hsort)).2
      have hhead : ∀ q ∈ rest.map eventPercent, eventPercent e ≤ q :=
        (List.sorted_cons.mp (by simpa using hsort)).1
      have hLe : L ≤ eventPercent e := by
        refine hL _ ?_
        simp
      simp only [runReports, if_pos htote]
      by_cases hc : eventPercent e ≠ L ∧ eventPercent e % 5 = 0
      · rw [if_pos hc]
        have hlt : L < eventPercent e := lt_of_le_of_ne hLe (Ne.symm hc.1)
        have hrec := ih (eventPercent e) htot' hsort' hhead
        simpa [reportValues] using List.Chain.cons hlt hrec
      · rw [if_neg hc]
        exact ih L htot' hsort' (fun p hp => hL p (by simp [hp]))

/-- Input refuting C7 as stated: 21 events with `total = 100` whose progress
walks 0, 5, 10, …, 100. Every derived percentage is a fresh multiple of 5,
so the loop prints 21 progress updates — more than the 20 the claim allows. -/
def c7events : List ProgressEvent :=
  (List.range 21).map fun k => ⟨"Downloading", 5 * k, 100⟩

/-- Counterexample to claim C7: on `c7events` (all totals positive, derived
percentages nondecreasing and at most 100) the loop emits 21 progress
updates, exceeding the claimed bound of 20. -/
theorem c7_counterexample :
    c7events.all (fun e => decide (0 < e.total)) = true ∧
      ((runReports (-1) c7events).2).length = 21 := by
  constructor
  · decide
  · decide

/-- Claim C7 as amended: when every progress event of a transfer has
`total > 0` and the derived percentages are nondecreasing and at most 100,
every emitted report is a percentage report at a multiple-of-5 boundary,
the emitted percentages are strictly increasing (each boundary is reported
at most once), and at most 21 — not 20 — updates are emitted. -/
theorem c7_amended (events : List ProgressEvent)
    (htot : ∀ e ∈ events, 0 < e.total)
    (hsort : List.Sorted (· ≤ ·) (events.map eventPercent))
    (hle : ∀ p ∈ events.map eventPercent, p ≤ 100) :
    ((runReports (-1) events).2).length ≤ 21 ∧
    (∀ rep ∈ (runReports (-1) events).2,
      ∃ a v, rep = Report.percent a v ∧ v % 5 = 0) ∧
    List.Chain (· < ·) (-1) (reportValues (runReports (-1) events).2) := by
  have hL : ∀ p ∈ events.map eventPercent, (-1 : Int) ≤ p := by
    intro p hp
    rcases List.mem_map.mp hp with ⟨e, he, rfl⟩
    have := eventPercent_nonneg e
    omega
  refine ⟨?_, runReports_multiples_of_five events (-1) htot,
    runReports_values_chain events (-1) htot hsort hL⟩
  have hb := runReports_length_bound events (-1) htot hsort hle hL (by norm_num)
  have : ((104 : Int) - (-1)) / 5 = 21 := by norm_num
  omega

/-- Witness for the amended C7 on a concrete monotone event stream. -/
theorem c7_amended_witness :
    ([(⟨"Downloading", 50, 100⟩ : ProgressEvent)].all
        (fun e => decide (0 < e.total)) = true) ∧
      ((runReports (-1) [(⟨"Downloading", 50, 100⟩ : ProgressEvent)]).2).length
        ≤ 21 :=
  ⟨by decide,
    (c7_amended [⟨"Downloading", 50, 100⟩] (by decide) (by decide)
      (by decide)).1⟩

/-- With `total == 0` throughout, the loop prints exactly one action line per
event whose label is not the literal `"Downloading"` — it does not compare
with the previously seen label — and never prints a percentage. -/
theorem runReports_total_zero (events : List ProgressEvent) : ∀ L : Int,
    (∀ e ∈ events, e.total = 0) →
    (runReports L events).2
      = (events.filter fun e => e.currentAction ≠ "Downloading").map
          fun e => Report.actionLabel e.currentAction := by
  induction events with
  | nil => intro L _; simp [runReports]
  | cons e rest ih =>
      intro L htot
      have htote : e.total = 0 := htot e (List.mem_cons_self e rest)
      have hnpos : ¬ 0 < e.total := by omega
      have htot' : ∀ x ∈ rest, x.total = 0 :=
        fun x hx => htot x (List.mem_cons_of_mem e hx)
      simp only [runReports, if_neg hnpos]
      by_cases ha : e.currentAction ≠ "Downloading"
      · rw [if_pos ha]
        simp [List.filter_cons, ha, ih L htot']
      · rw [if_neg ha]
        push_neg at ha
        simp [List.filter_cons, ha, ih L htot']

/-- Input refuting C8 as stated: two consecutive indeterminate events with
the same action label. -/
def c8events : List ProgressEvent :=
  [⟨"Negotiating", 0, 0⟩, ⟨"Negotiating", 0, 0⟩]

/-- Counterexample to claim C8: on two consecutive `total == 0` events with
the identical label `"Negotiating"`, the loop prints two action reports even
though the label never changes from the previously seen one — reports are
not restricted to label transitions. -/
theorem c8_counterexample :
    (runReports (-1) c8events).2
      = [Report.actionLabel "Negotiating", Report.actionLabel "Negotiating"] := by
  decide

/-- Claim C8 as amended: for a transfer whose progress events all have
`total == 0`, the executor reports the action label of exactly those events
whose label is not the literal `"Downloading"` — independently of whether
the label changed — and never reports a percentage for such events. -/
theorem c8_amended (events : List ProgressEvent)
    (h : ∀ e ∈ events, e.total = 0) :
    (runReports (-1) events).2
        = (events.filter fun e => e.currentAction ≠ "Downloading").map
            (fun e => Report.actionLabel e.currentAction) ∧
    ∀ rep ∈ (runReports (-1) events).2, ∃ lbl, rep = Report.actionLabel lbl := by
  have h1 := runReports_total_zero events (-1) h
  refine ⟨h1, ?_⟩
  intro rep hrep
  rw [h1] at hrep
  rcases List.mem_map.mp hrep with ⟨e, _, rfl⟩
  exact ⟨e.currentAction, rfl⟩

/-- Witness for the amended C8 on the concrete two-event stream. -/
theorem c8_amended_witness :
    (c8events.all (fun e => decide (e.total = 0)) = true) ∧
      (runReports (-1) c8events).2
        = (c8events.filter fun e => e.currentAction ≠ "Downloading").map
            (fun e => Report.actionLabel e.currentAction) :=
  ⟨by decide, (c8_amended c8events (by decide)).1⟩

end TapoExport
